import Mathlib

/-!
Verification of the S3 transfer-manager download engine
(`feature/s3/transfermanager/api_op_DownloadObject.go`).

The Go source is shallowly embedded: the downloader's mutable fields become an
explicit state record (`DState`), each GetObject call is an oracle-supplied
`AttemptResult`, goroutine interleavings of the fan-out phase are modelled by an
explicit small-step relation (`coordStep`/`coordRun`), and the sequential parts
of `download` are modelled directly as functions.  Machine integers (`int64`,
`int32`) are modelled as `Int`, with two's-complement wrap-around (`wrap64`) and
the `int64 -> float64 -> int64` round trip (`floatRoundInt`) made explicit where
the source relies on them.
-/

set_option maxRecDepth 10000

/-- `strings.Split` on a one-character separator, on `List Char`:
`n` occurrences of the separator yield `n+1` pieces; the result is never empty. -/
def splitList (sep : Char) : List Char → List (List Char)
  | [] => [[]]
  | c :: cs =>
    if c = sep then [] :: splitList sep cs
    else
      match splitList sep cs with
      | [] => [[c]]
      | p :: ps => (c :: p) :: ps

/-- `strings.Split(s, sep)` for a one-character `sep`. -/
def splitOnChar (sep : Char) (s : String) : List String :=
  (splitList sep s.toList).map fun l => String.mk l

/-- Accumulator loop for decimal digit parsing: fails on the first non-digit. -/
def digitsToNatAux : List Char → Nat → Option Nat
  | [], acc => some acc
  | c :: cs, acc =>
    if c.isDigit then digitsToNatAux cs (acc * 10 + (c.toNat - 48)) else none

/-- Value of a non-empty all-digit character list; `none` if empty or any
character is not a decimal digit. -/
def digitsToNat? (l : List Char) : Option Nat :=
  if l.isEmpty then none else digitsToNatAux l 0

def int64Max : Int := 2 ^ 63 - 1

def int64Min : Int := -(2 ^ 63)

/-- `strconv.ParseInt(s, 10, 64)`: optional sign, at least one digit, and the
value must fit in `int64`; `none` models a returned `*strconv.NumError`. -/
def parseInt64 (s : String) : Option Int :=
  match s.toList with
  | '+' :: rest =>
    match digitsToNat? rest with
    | none => none
    | some n => if (n : Int) ≤ int64Max then some (n : Int) else none
  | '-' :: rest =>
    match digitsToNat? rest with
    | none => none
    | some n => if int64Min ≤ -(n : Int) then some (-(n : Int)) else none
  | l =>
    match digitsToNat? l with
    | none => none
    | some n => if (n : Int) ≤ int64Max then some (n : Int) else none

/-- Number of binary digits of `n` (`0` for `0`), with explicit fuel so the
recursion is structural; fuel `64` suffices for every value in this file. -/
def bitLen : Nat → Nat → Nat
  | 0, _ => 0
  | fuel + 1, n => if n = 0 then 0 else bitLen fuel (n / 2) + 1

/-- The value of `float64(n)` for a natural `n < 2^64`: round to the nearest
representable IEEE-754 double (53-bit mantissa), ties to even mantissa. -/
def floatRoundNat (n : Nat) : Nat :=
  let k := bitLen 64 n
  if k ≤ 53 then n
  else
    let s := 2 ^ (k - 53)
    let q := n / s
    let r := n % s
    if 2 * r < s then q * s
    else if s < 2 * r then (q + 1) * s
    else if q % 2 = 0 then q * s else (q + 1) * s

/-- The value of Go's `float64(x)` conversion for an `int64` `x` (rounding is
sign-symmetric). -/
def floatRoundInt (x : Int) : Int :=
  if 0 ≤ x then (floatRoundNat x.toNat : Int) else -(floatRoundNat (-x).toNat : Int)

/-- Two's-complement wrap-around of Go `int64` arithmetic. -/
def wrap64 (x : Int) : Int := (x + 2 ^ 63) % 2 ^ 64 - 2 ^ 63

/-- `downloader.byteRange`: if the total size is known the upper bound is
`int64(math.Min(float64(totalBytes-1), float64(pos+partSize-1)))` — both
operands pass through `float64` — otherwise it is `pos+partSize-1`.
`totalBytes - 1` needs no wrap (`totalBytes ≥ 0` in that branch); the final
float64-to-int64 truncation is exact on the integral values modelled here. -/
def byteRange (totalBytes pos partSize : Int) : String :=
  if 0 ≤ totalBytes then
    "bytes=" ++ toString pos ++ "-" ++
      toString (min (floatRoundInt (totalBytes - 1)) (floatRoundInt (wrap64 (pos + partSize - 1))))
  else
    "bytes=" ++ toString pos ++ "-" ++ toString (wrap64 (pos + partSize - 1))

/-- Outcome of `downloader.getDownloadRange`.  `panicIdx` is a Go
index-out-of-range panic, `fail s` is the path that stores the `strconv` error
into `d.err` and returns `(0, 0)`, `ok lo hi` is the parsed half-open span. -/
inductive RangeParse where
  | panicIdx : RangeParse
  | fail : String → RangeParse
  | ok : Int → Int → RangeParse
deriving Repr, DecidableEq

def RangeParse.isFail : RangeParse → Bool
  | .fail _ => true
  | _ => false

/-- `downloader.getDownloadRange`:
`parts := strings.Split(strings.Split(d.in.Range, "=")[1], "-")`, then
`ParseInt(parts[0])`, then `ParseInt(parts[1])`, returning `(start, end+1)`.
Index `[1]` panics when the separator is absent; the second index is only
reached after the first bound parses. -/
def getDownloadRange (rng : String) : RangeParse :=
  match splitOnChar '=' rng with
  | _ :: afterEq :: _ =>
    match splitOnChar '-' afterEq with
    | p0 :: rest =>
      match parseInt64 p0 with
      | none => .fail p0
      | some lo =>
        match rest with
        | p1 :: _ =>
          match parseInt64 p1 with
          | none => .fail p1
          | some hi => .ok lo (hi + 1)
        | [] => .panicIdx
    | [] => .panicIdx
  | _ => .panicIdx

/-- The fields of `DownloadObjectInput` the downloader's control flow reads.
Remaining fields (checksum mode, SSE keys, response-header overrides, payer)
are copied verbatim into the request and never branch on; they are omitted. -/
structure DLInput where
  bucket : String := ""
  key : String := ""
  ifMatch : String := ""
  ifNoneMatch : String := ""
  versionID : String := ""
  partNumber : Int := 0
  range : String := ""
deriving Repr, DecidableEq

/-- The corresponding fields of `s3.GetObjectInput` (pointer fields become
`Option`; a Go `nil` pointer is `none`). -/
structure GetObjParams where
  bucket : String := ""
  key : String := ""
  ifMatch : Option String := none
  ifNoneMatch : Option String := none
  versionId : Option String := none
  partNumber : Option Int := none
  range : Option String := none
deriving Repr, DecidableEq

/-- Modelled from the spec: the repository's `nzstring` helper (defined outside
`src/`) maps the empty string to a `nil` pointer, so an optional request field
is sent only when non-empty ("not already pinned to a specific object
version" corresponds to a `nil` `VersionId`). -/
def nzstring (s : String) : Option String :=
  if s = "" then none else some s

/-- `DownloadObjectInput.mapGetObjectInput`, restricted to the modelled fields.
Note that the source copies neither `PartNumber` nor `Range` into the
`GetObjectInput`, so both stay `nil` here, exactly as in the source. -/
def mapGetObjectInput (i : DLInput) : GetObjParams :=
  { bucket := i.bucket
    key := i.key
    ifMatch := nzstring i.ifMatch
    ifNoneMatch := nzstring i.ifNoneMatch
    versionId := nzstring i.versionID }

/-- The fields of `s3.GetObjectOutput` the downloader reads.  `meta` is an
opaque identifier standing for the rest of the response metadata, so that
"which response's metadata was kept" is observable. -/
structure GetObjResp where
  etag : Option String := none
  contentLength : Option Int := none
  contentRange : Option String := none
  partsCount : Option Int := none
  meta : Nat := 0
deriving Repr, DecidableEq

/-- The fields of `DownloadObjectOutput` the claims mention. -/
structure DOutput where
  etag : String := ""
  contentLength : Int := 0
  contentRange : String := ""
  partsCount : Int := 0
  meta : Nat := 0
deriving Repr, DecidableEq

/-- `DownloadObjectOutput.mapFromGetObjectOutput` restricted to the modelled
fields (`aws.ToString`/`aws.ToInt64`/`aws.ToInt32` of `nil` give zero values). -/
def mapFromGetObjectOutput (r : GetObjResp) : DOutput :=
  { etag := r.etag.getD ""
    contentLength := r.contentLength.getD 0
    contentRange := r.contentRange.getD ""
    partsCount := r.partsCount.getD 0
    meta := r.meta }

/-- Errors of the download engine: `callFailure` is an error returned by
`S3.GetObject` itself, `readingBody` is the `errReadingBody` wrapper produced
when copying the response body fails, `parseFailure` is a `strconv` error
stored into `d.err`. -/
inductive DErr where
  | callFailure : Nat → DErr
  | readingBody : Nat → DErr
  | parseFailure : String → DErr
deriving Repr, DecidableEq

/-- The `err.(*errReadingBody)` type assertion in `downloadChunk`. -/
def DErr.isReadingBody : DErr → Bool
  | .readingBody _ => true
  | _ => false

/-- Behaviour of one `S3.GetObject` call, supplied by the environment:
the call fails outright, or succeeds but copying the body fails, or succeeds
and `io.Copy` writes `n` bytes. -/
inductive AttemptResult where
  | callErr : Nat → AttemptResult
  | bodyErr : GetObjResp → Nat → AttemptResult
  | okResp : GetObjResp → Int → AttemptResult
deriving Repr, DecidableEq

def AttemptResult.isBodyErr : AttemptResult → Bool
  | .bodyErr _ _ => true
  | _ => false

/-- `dlChunk` (the destination `WriterAt` handle is not modelled; writes are
summarised by the byte counts the oracle reports). -/
structure Chunk where
  start : Int := 0
  cur : Int := 0
  part : Int := 0
  withRange : String := ""
deriving Repr, DecidableEq

/-- The `downloader` struct's mutable fields, plus two ghost fields:
`requests` logs every `GetObjectInput` built by `downloadChunk`, and
`getCalls` counts the `S3.GetObject` calls actually issued. -/
structure DState where
  offset : Int := 0
  pos : Int := 0
  totalBytes : Int := 0
  written : Int := 0
  etag : String := ""
  etagOnceDone : Bool := false
  totalBytesOnceDone : Bool := false
  out : Option DOutput := none
  err : Option DErr := none
  requests : List GetObjParams := []
  getCalls : Nat := 0
deriving Repr, DecidableEq

/-- `downloader.init`: the zero-valued struct with `totalBytes = -1`. -/
def dInit : DState := { totalBytes := -1 }

/-- `downloader.setErr`: stores `e` unconditionally (it does not check whether
an error is already recorded). -/
def setErrS (st : DState) (e : DErr) : DState := { st with err := some e }

/-- `downloader.setOutput`: first writer wins; note that storing a `nil`
response leaves `d.out` nil, so a later response can still claim the slot. -/
def setOutputS (st : DState) (resp : Option DOutput) : DState :=
  if st.out.isSome then st else { st with out := resp }

/-- `downloader.incrWritten`. -/
def incrWrittenS (st : DState) (n : Int) : DState := { st with written := st.written + n }

/-- The body of `downloader.setTotalBytes`: keep an already-known total;
otherwise take `ContentLength` when no `ContentRange` is present, else parse
the segment after the last `/` of the `ContentRange`, storing a parse error
directly into `d.err`. -/
def setTotalBytes (st : DState) (resp : GetObjResp) : DState :=
  if 0 ≤ st.totalBytes then st
  else
    match resp.contentRange with
    | none => { st with totalBytes := resp.contentLength.getD 0 }
    | some cr =>
      let totalStr := (splitOnChar '/' cr).getLastD ""
      match parseInt64 totalStr with
      | none => { st with err := some (.parseFailure totalStr) }
      | some total => { st with totalBytes := total }

/-- `d.totalBytesOnce.Do(func() { d.setTotalBytes(out) })`. -/
def captureTotal (st : DState) (resp : GetObjResp) : DState :=
  if st.totalBytesOnceDone then st
  else
    let st' := setTotalBytes st resp
    { st' with totalBytesOnceDone := true }

/-- `d.etagOnce.Do(func() { d.etag = aws.ToString(out.ETag) })`. -/
def etagOnceDoS (st : DState) (tag : String) : DState :=
  if st.etagOnceDone then st else { st with etag := tag, etagOnceDone := true }

/-- The request construction at the top of `downloader.downloadChunk`:
`mapGetObjectInput`, then the chunk's part number (if non-zero) and range (if
non-empty), then — when the request carries no `VersionId` and an etag has been
recorded — `IfMatch` is overwritten with the recorded etag. -/
def buildChunkParams (input : DLInput) (st : DState) (chunk : Chunk) : GetObjParams :=
  let p := mapGetObjectInput input
  let p := if chunk.part ≠ 0 then { p with partNumber := some chunk.part } else p
  let p := if chunk.withRange ≠ "" then { p with range := some chunk.withRange } else p
  if p.versionId = none ∧ st.etag ≠ "" then { p with ifMatch := some st.etag } else p

/-- `downloader.tryDownloadChunk` given the oracle's behaviour for this call:
a call-level failure returns `(nil, 0, err)` untouched; a successful call first
fires `totalBytesOnce` (even if the body copy then fails, which yields
`(nil, 0, errReadingBody)`); a full success returns the response and the byte
count.  `getCalls` counts the issued call. -/
def tryDownloadChunk (st : DState) (res : AttemptResult) :
    DState × Option GetObjResp × Int × Option DErr :=
  let st := { st with getCalls := st.getCalls + 1 }
  match res with
  | .callErr e => (st, none, 0, some (.callFailure e))
  | .bodyErr resp e => (captureTotal st resp, none, 0, some (.readingBody e))
  | .okResp resp n => (captureTotal st resp, some resp, n, none)

/-- The retry loop of `downloader.downloadChunk`
(`for retry := 0; retry < PartBodyMaxRetries; retry++`), recursing on the
remaining iteration count.  `acc` carries the loop variables `(out, n, err)`
(zero-valued before the first iteration, and retaining the last iteration's
values when the bound is exhausted); the final `Bool` marks the early
`return nil, err` taken for a non-`errReadingBody` failure. -/
def chunkLoop (att : Nat → AttemptResult) :
    DState → Nat → Nat → Option GetObjResp × Int × Option DErr →
    DState × (Option GetObjResp × Int × Option DErr) × Bool
  | st, _, 0, acc => (st, acc, false)
  | st, idx, remaining + 1, _ =>
    let (st1, out, n, err) := tryDownloadChunk st (att idx)
    match err with
    | none => (st1, (out, n, none), false)
    | some e =>
      if e.isReadingBody then chunkLoop att st1 (idx + 1) remaining (out, n, some e)
      else (st1, (none, 0, some e), true)

/-- One logical chunk: the `dlChunk` descriptor plus the oracle giving the
outcome of each successive `GetObject` attempt for this chunk. -/
structure Job where
  chunk : Chunk := {}
  attempts : Nat → AttemptResult

/-- `downloader.downloadChunk`: build the request (logged in `requests`), run
the retry loop, and — unless the loop early-returned — add the bytes written
and, when the last attempt succeeded, map the output and capture the etag via
`etagOnce`. -/
def downloadChunk (partBodyMaxRetries : Int) (input : DLInput) (st : DState) (job : Job) :
    DState × Option DOutput × Option DErr :=
  let params := buildChunkParams input st job.chunk
  let st0 := { st with requests := st.requests ++ [params] }
  let (st1, (out, n, err), early) :=
    chunkLoop job.attempts st0 0 partBodyMaxRetries.toNat (none, 0, none)
  if early then (st1, none, err)
  else
    let st2 := incrWrittenS st1 n
    match out with
    | none => (st2, none, err)
    | some resp =>
      let st3 := etagOnceDoS st2 (resp.etag.getD "")
      (st3, some (mapFromGetObjectOutput resp), err)

/-- Sequential processing of a list of chunks through `downloadChunk`,
threading the shared downloader state (the concurrency-1 interleaving of the
worker pool; `sync.Once` and the set-once slots behave identically under any
interleaving because each `Do`/store is atomic under the shared mutex). -/
def processChunks (partBodyMaxRetries : Int) (input : DLInput) (st : DState)
    (jobs : List Job) : DState :=
  jobs.foldl (fun s j => (downloadChunk partBodyMaxRetries input s j).1) st

/-- Modelled from the spec: `minPartSizeBytes` is declared outside `src/`;
the spec only requires "chunkSize ≥ a minimum floor", instantiated here with
the S3 minimum part size of 5 MiB. -/
def minPartSizeBytes : Int := 5242880

/-- `types.GetObjectType`: whole-object downloads chunked by ranges or by
parts. -/
inductive GetObjectType where
  | ranges : GetObjectType
  | parts : GetObjectType
deriving Repr, DecidableEq

/-- The `Options` fields `download` reads. -/
structure TMOptions where
  partSizeBytes : Int
  partBodyMaxRetries : Int
  concurrency : Nat := 5
  getObjectType : GetObjectType := .ranges
deriving Repr, DecidableEq

/-- Result of a `DownloadObject` call.  `ret out err` is a normal
`return out, err` (either side may be nil); `failInit` is the init-validation
error; `panicNil` is a nil-pointer dereference of a nil `*DownloadObjectOutput`;
`panicIdxRange` is the index panic of `getDownloadRange`; `outOfFuel` is a
model artefact marking insufficient fuel for the producer loop (never reached
in the runs below). -/
inductive DownloadResult where
  | ret : Option DOutput → Option DErr → DownloadResult
  | failInit : String → DownloadResult
  | panicNil : DownloadResult
  | panicIdxRange : DownloadResult
  | outOfFuel : DownloadResult
deriving Repr, DecidableEq

/-- `downloader.getChunk`: build a `dlChunk` at the current position, run
`downloadChunk`; on error record it via `setErr` and return the (nil) output,
otherwise store the output via `setOutput` and advance `d.pos` by the
response's `ContentLength` — a nil-pointer dereference (`none`) when the loop
made no attempt and returned a nil output with nil error. -/
def getChunk (partBodyMaxRetries : Int) (input : DLInput) (st : DState) (part : Int)
    (rng : String) (att : Nat → AttemptResult) : Option (DState × Option DOutput) :=
  let chunk : Chunk := { start := st.pos - st.offset, part := part, withRange := rng }
  let (st1, out, err) := downloadChunk partBodyMaxRetries input st { chunk := chunk, attempts := att }
  match err with
  | some e => some (setErrS st1 e, out)
  | none =>
    let st2 := setOutputS st1 out
    match out with
    | none => none
    | some o => some ({ st2 with pos := st2.pos + o.contentLength }, out)

/-- `downloader.singleDownload`: one `downloadChunk` on a zero-valued `dlChunk`
(neither `part` nor `withRange` is set). -/
def singleDownload (partBodyMaxRetries : Int) (input : DLInput) (st : DState)
    (att : Nat → AttemptResult) : DownloadResult × DState :=
  let (st1, out, err) := downloadChunk partBodyMaxRetries input st { chunk := {}, attempts := att }
  match err with
  | some e => (.ret none (some e), st1)
  | none => (.ret out none, st1)

/-- `d.pos, d.totalBytes = d.getDownloadRange(); d.offset = d.pos` — on a
parse failure the pair is `(0, 0)` and the error is recorded; `none` is the
index panic. -/
def applyDownloadRange (st : DState) (rng : String) : Option DState :=
  match getDownloadRange rng with
  | .panicIdx => none
  | .fail s => some { st with pos := 0, totalBytes := 0, offset := 0, err := some (.parseFailure s) }
  | .ok lo hi => some { st with pos := lo, totalBytes := hi, offset := lo }

/-- The final lines of `downloader.download`: a recorded error is returned
alone; otherwise the stored first output is returned with `ContentLength`
overwritten by the written-byte counter and `ContentRange` by
`fmt.Sprintf("bytes=%d-%d", d.offset, d.totalBytes-1)` (a nil `d.out` would be
a nil dereference). -/
def finalizeD (st : DState) : DownloadResult × DState :=
  match st.err with
  | some e => (.ret none (some e), st)
  | none =>
    match st.out with
    | none => (.panicNil, st)
    | some o =>
      (.ret (some { o with
          contentLength := st.written
          contentRange := "bytes=" ++ toString st.offset ++ "-" ++ toString (st.totalBytes - 1) })
        none, st)

/-- The producer loop of the byte-range path
(`for d.getErr() == nil { if d.pos >= total { break }; ch <- ...; d.pos += partSize }`),
with each queued chunk processed immediately by a worker
(`downloadPart`: fetch, then `setErr` on failure / `setOutput` on success).
`k` numbers the chunk fetches for the oracle; recursion is on explicit fuel. -/
def rangedLoop (partBodyMaxRetries partSize : Int) (input : DLInput)
    (fetches : Nat → Nat → AttemptResult) (total : Int) :
    DState → Nat → Nat → Option DState
  | _, _, 0 => none
  | st, k, fuel + 1 =>
    if st.err = none then
      if st.pos < total then
        let chunk : Chunk := { start := st.pos - st.offset, withRange := byteRange st.totalBytes st.pos partSize }
        let st1 := { st with pos := st.pos + partSize }
        let (st2, out, err) := downloadChunk partBodyMaxRetries input st1 { chunk := chunk, attempts := fetches k }
        let st3 := match err with
          | some e => setErrS st2 e
          | none => setOutputS st2 out
        rangedLoop partBodyMaxRetries partSize input fetches total st3 (k + 1) fuel
      else some st
    else some st

/-- The producer loop of the by-parts path
(`for i := int32(2); i <= output.PartsCount; i++ { if d.getErr() != nil { break }; ... }`),
sequentialised like `rangedLoop`; part chunks carry a part number and no range. -/
def partsLoop (partBodyMaxRetries partSize partsCount : Int) (input : DLInput)
    (fetches : Nat → Nat → AttemptResult) :
    DState → Int → Nat → Nat → Option DState
  | _, _, _, 0 => none
  | st, i, k, fuel + 1 =>
    if i ≤ partsCount then
      if st.err = none then
        let chunk : Chunk := { start := st.pos - st.offset, part := i }
        let st1 := { st with pos := st.pos + partSize }
        let (st2, out, err) := downloadChunk partBodyMaxRetries input st1 { chunk := chunk, attempts := fetches k }
        let st3 := match err with
          | some e => setErrS st2 e
          | none => setOutputS st2 out
        partsLoop partBodyMaxRetries partSize partsCount input fetches st3 (i + 1) (k + 1) fuel
      else some st
    else some st

/-- `Client.DownloadObject` / `downloader.download`, sequentialised (every
chunk fetch is processed at its enqueue point; `fetches k` is the oracle for
the `k`-th chunk fetch, attempt by attempt).  Mirrors the dispatch of the
source: init validation; an explicit positive part number (and an explicit
range in by-parts mode) short-circuits to `singleDownload`; the by-parts path
probes part 1 and fans out over parts `2..PartsCount`; the byte-range path
applies an explicit download range, probes the first chunk's range, and fans
out until the total is covered. -/
def download (opts : TMOptions) (input : DLInput)
    (fetches : Nat → Nat → AttemptResult) (fuel : Nat) : DownloadResult × DState :=
  if opts.partSizeBytes < minPartSizeBytes then (.failInit "part size must be at least minPartSizeBytes", dInit)
  else if opts.partBodyMaxRetries < 0 then (.failInit "part body retry must be non-negative", dInit)
  else
    let st := dInit
    if 0 < input.partNumber then singleDownload opts.partBodyMaxRetries input st (fetches 0)
    else if opts.getObjectType = .parts then
      if input.range ≠ "" then singleDownload opts.partBodyMaxRetries input st (fetches 0)
      else
        match getChunk opts.partBodyMaxRetries input st 1 "" (fetches 0) with
        | none => (.panicNil, st)
        | some (st1, probeOut) =>
          if st1.err.isSome then (.ret probeOut st1.err, st1)
          else
            match probeOut with
            | none => (.panicNil, st1)
            | some o =>
              if 1 < o.partsCount then
                let partSize := o.contentLength
                match partsLoop opts.partBodyMaxRetries partSize o.partsCount input fetches st1 2 1 fuel with
                | none => (.outOfFuel, st1)
                | some st2 => finalizeD st2
              else finalizeD st1
    else
      match (if input.range ≠ "" then applyDownloadRange st input.range else some st) with
      | none => (.panicIdxRange, st)
      | some st1 =>
        let rng := byteRange st1.totalBytes st1.pos opts.partSizeBytes
        match getChunk opts.partBodyMaxRetries input st1 0 rng (fetches 0) with
        | none => (.panicNil, st1)
        | some (st2, _) =>
          let total := st2.totalBytes
          match rangedLoop opts.partBodyMaxRetries opts.partSizeBytes input fetches total st2 1 fuel with
          | none => (.outOfFuel, st2)
          | some st3 => finalizeD st3

/-- State of the fan-out coordinator as seen through the shared mutex:
`err` is `d.err`; `queue` is the bounded channel's content (chunk ids);
`inflight` is the set of workers currently inside a fetch; `errHistory` is a
ghost log of every `setErr` call in order; `outSet` records the first worker
whose output claimed `d.out`; `written` is `d.written`. -/
structure CoordState where
  err : Option Nat := none
  queue : List Nat := []
  inflight : List Nat := []
  errHistory : List Nat := []
  outSet : Option Nat := none
  written : Int := 0
deriving Repr, DecidableEq

def coordInit : CoordState := {}

/-- Atomic events of the fan-out phase, one per mutex-protected step of the
source: the producer enqueues only while `d.getErr() == nil`; a worker
dequeues and either enters a fetch (its `d.getErr()` check saw `nil`) or
skips/drains the chunk (it saw an error); a finished fetch either calls
`d.setErr` — which stores the error unconditionally — or merges its output and
byte count.  The long-running fetch itself is the gap between a worker's
`start` and its `fail`/`succeed`. -/
inductive CoordEv where
  | enqueue : Nat → CoordEv
  | start : Nat → CoordEv
  | skip : Nat → CoordEv
  | fail : Nat → Nat → CoordEv
  | succeed : Nat → Int → CoordEv
deriving Repr, DecidableEq

/-- One step of the coordinator; `none` when the event's guard does not hold
(the schedule is invalid). -/
def coordStep (st : CoordState) : CoordEv → Option CoordState
  | .enqueue c =>
    if st.err = none then some { st with queue := st.queue ++ [c] } else none
  | .start w =>
    match st.queue with
    | [] => none
    | _ :: q =>
      if st.err = none ∧ w ∉ st.inflight then
        some { st with queue := q, inflight := w :: st.inflight }
      else none
  | .skip w =>
    match st.queue with
    | [] => none
    | _ :: q => if st.err.isSome ∧ w ∉ st.inflight then some { st with queue := q } else none
  | .fail w e =>
    if w ∈ st.inflight then
      some { st with err := some e, errHistory := st.errHistory ++ [e],
                     inflight := st.inflight.erase w }
    else none
  | .succeed w n =>
    if w ∈ st.inflight then
      some { st with written := st.written + n, inflight := st.inflight.erase w,
                     outSet := match st.outSet with | some o => some o | none => some w }
    else none

/-- Run a schedule of coordinator events; `none` iff some guard fails. -/
def coordRun : CoordState → List CoordEv → Option CoordState
  | st, [] => some st
  | st, ev :: evs =>
    match coordStep st ev with
    | none => none
    | some st' => coordRun st' evs

/-! Concrete scenarios used by the theorems below. -/

def optsStd : TMOptions := { partSizeBytes := 8388608, partBodyMaxRetries := 3 }

def optsZeroRetry : TMOptions := { partSizeBytes := 8388608, partBodyMaxRetries := 0 }

def optsPartsMode : TMOptions :=
  { partSizeBytes := 8388608, partBodyMaxRetries := 3, concurrency := 4, getObjectType := .parts }

def inputPlain : DLInput := {}

def inputPartTwo : DLInput := { bucket := "b", key := "k", partNumber := 2 }

def inputPartOne : DLInput := { bucket := "b", key := "k", partNumber := 1 }

def inputSubrange : DLInput := { bucket := "b", key := "k", range := "bytes=100-199" }

def inputPartsRange : DLInput := { bucket := "b", key := "k", range := "bytes=0-9" }

/-- A response to an explicit `bytes=100-199` request on a 1000-byte object. -/
def respSub : GetObjResp :=
  { etag := some "tag1", contentLength := some 100,
    contentRange := some "bytes 100-199/1000", meta := 7 }

def fetchOkSub : Nat → Nat → AttemptResult := fun _ _ => .okResp respSub 100

def fetchBodyFail : Nat → Nat → AttemptResult := fun _ _ => .bodyErr respSub 7

/-- A chunk whose `GetObject` call itself fails on every attempt. -/
def jobCallFail : Job := { attempts := fun _ => .callErr 3 }

/-- A chunk that succeeds on its first attempt. -/
def jobOkSub : Job := { attempts := fun _ => .okResp respSub 100 }

/-! Theorems.  Each claim of the specification is settled by exactly one
theorem (plus a witness when the theorem carries hypotheses, and a
counterexample where the claim fails as stated). -/

/-- **C2** (code-bug evidence): with an explicit `PartNumber: 2` (and likewise
an explicit sub-range in by-parts mode) the download is a single fetch with no
fan-out — but the one `GetObjectInput` it builds carries **no** part number and
**no** range (`mapGetObjectInput` copies neither field and `singleDownload`
leaves the `dlChunk` zero-valued), so the fetch retrieves the whole object
rather than the part/sub-range the caller specified. -/
theorem single_download_ignores_part_and_range :
    (download optsStd inputPartTwo fetchOkSub 8).2.requests.map GetObjParams.partNumber = [none] ∧
    (download optsStd inputPartTwo fetchOkSub 8).2.requests.map GetObjParams.range = [none] ∧
    (download optsStd inputPartTwo fetchOkSub 8).2.getCalls = 1 ∧
    inputPartTwo.partNumber = 2 ∧
    (download optsPartsMode inputPartsRange fetchOkSub 8).2.requests.map GetObjParams.range = [none] ∧
    (download optsPartsMode inputPartsRange fetchOkSub 8).2.getCalls = 1 ∧
    inputPartsRange.range = "bytes=0-9" := by
  decide

/-- **C3** (code-bug evidence): with `PartBodyMaxRetries = 0` the retry loop
`for retry := 0; retry < d.options.PartBodyMaxRetries` executes zero times, so
no `GetObject` call is ever attempted (`getCalls = 0`) and `downloadChunk`
returns a nil output with a nil error: the ranged path then dereferences the
nil output (`d.pos += output.ContentLength`), and the single-download path
returns `(nil, nil)` — not the claimed single attempt failing with the chunk's
body-stream error. -/
theorem zero_retries_makes_no_attempt :
    (download optsZeroRetry inputPlain fetchBodyFail 8).1 = .panicNil ∧
    (download optsZeroRetry inputPlain fetchBodyFail 8).2.getCalls = 0 ∧
    (download optsZeroRetry inputPartOne fetchBodyFail 8).1 = .ret none none ∧
    (download optsZeroRetry inputPartOne fetchBodyFail 8).2.getCalls = 0 := by
  decide

/-- **C1** (counterexample): a valid schedule in which two workers enter their
fetches before either fails.  `setErr` stores unconditionally, so the recorded
error transitions `none → some 10 → some 20`: it changes twice, and the error
the caller receives (`20`) is the **last** error recorded, not the first
(`10`); the first error is the one silently dropped. -/
theorem coord_first_error_not_returned :
    coordRun coordInit [.enqueue 0, .enqueue 1, .start 0, .start 1, .fail 0 10, .fail 1 20] =
      some { err := some 20, errHistory := [10, 20] } ∧
    (coordRun coordInit [.enqueue 0, .enqueue 1, .start 0, .start 1, .fail 0 10]).map CoordState.err =
      some (some 10) ∧
    (some 20 : Option Nat) ≠ some 10 := by
  decide

/-- **C8** (counterexample): a range string missing the `-` separator (and
likewise one missing `=`) makes `getDownloadRange` hit an index-out-of-range
panic — it does not record a `ParseError` and the download does not fail with
one; it crashes. -/
theorem malformed_range_panics_not_parse_error :
    getDownloadRange "bytes=100" = RangeParse.panicIdx ∧
    (getDownloadRange "bytes=100").isFail = false ∧
    getDownloadRange "100-200" = RangeParse.panicIdx := by
  decide

/-- **C9** (counterexample): above `2^53` the float64 round trip in
`byteRange` is lossy.  With `totalBytes = 2^53 + 2`, `pos = 2^53 - 8388605`
and `chunkSize = 8388608`, the exact `min(totalBytes-1, pos+chunkSize-1)` is
`2^53 + 1 = 9007199254740993`, but `float64(2^53+1)` rounds to `2^53`, so the
generated header ends in `9007199254740992` — not the exact value the claim
asserts for all representable `int64` inputs. -/
theorem byteRange_inexact_above_2_53 :
    byteRange 9007199254740994 9007199246352387 8388608 =
      "bytes=9007199246352387-9007199254740992" ∧
    min (9007199254740994 - 1 : Int) (9007199246352387 + 8388608 - 1) = 9007199254740993 ∧
    ("bytes=9007199246352387-9007199254740992" : String) ≠
      "bytes=9007199246352387-9007199254740993" := by
  decide

theorem coordStep_err_mono {st st' : CoordState} {ev : CoordEv}
    (h : coordStep st ev = some st') (he : st.err.isSome = true) : st'.err.isSome = true := by
  cases ev with
  | enqueue c =>
    simp only [coordStep] at h
    split at h
    · cases h; exact he
    · cases h
  | start w =>
    cases hq : st.queue with
    | nil => simp [coordStep, hq] at h
    | cons a q =>
      simp only [coordStep, hq] at h
      split at h
      · cases h; exact he
      · cases h
  | skip w =>
    cases hq : st.queue with
    | nil => simp [coordStep, hq] at h
    | cons a q =>
      simp only [coordStep, hq] at h
      split at h
      · cases h; exact he
      · cases h
  | fail w e =>
    simp only [coordStep] at h
    split at h
    · cases h; rfl
    · cases h
  | succeed w n =>
    simp only [coordStep] at h
    split at h
    · cases h; exact he
    · cases h

theorem coordStep_lastErr {st st' : CoordState} {ev : CoordEv}
    (h : coordStep st ev = some st') (hi : st.err = st.errHistory.getLast?) :
    st'.err = st'.errHistory.getLast? := by
  cases ev with
  | enqueue c =>
    simp only [coordStep] at h
    split at h
    · cases h; exact hi
    · cases h
  | start w =>
    cases hq : st.queue with
    | nil => simp [coordStep, hq] at h
    | cons a q =>
      simp only [coordStep, hq] at h
      split at h
      · cases h; exact hi
      · cases h
  | skip w =>
    cases hq : st.queue with
    | nil => simp [coordStep, hq] at h
    | cons a q =>
      simp only [coordStep, hq] at h
      split at h
      · cases h; exact hi
      · cases h
  | fail w e =>
    simp only [coordStep] at h
    split at h
    · cases h; exact (List.getLast?_concat _).symm
    · cases h
  | succeed w n =>
    simp only [coordStep] at h
    split at h
    · cases h; exact hi
    · cases h

theorem coordRun_err_mono {evs : List CoordEv} {st st' : CoordState}
    (h : coordRun st evs = some st') (he : st.err.isSome = true) : st'.err.isSome = true := by
  induction evs generalizing st with
  | nil => simp only [coordRun] at h; cases h; exact he
  | cons ev evs ih =>
    simp only [coordRun] at h
    cases hstep : coordStep st ev with
    | none => simp only [hstep] at h; exact Option.noConfusion h
    | some m =>
      simp only [hstep] at h
      exact ih h (coordStep_err_mono hstep he)

theorem coordRun_lastErr {evs : List CoordEv} {st st' : CoordState}
    (h : coordRun st evs = some st') (hi : st.err = st.errHistory.getLast?) :
    st'.err = st'.errHistory.getLast? := by
  induction evs generalizing st with
  | nil => simp only [coordRun] at h; cases h; exact hi
  | cons ev evs ih =>
    simp only [coordRun] at h
    cases hstep : coordStep st ev with
    | none => simp only [hstep] at h; exact Option.noConfusion h
    | some m =>
      simp only [hstep] at h
      exact ih h (coordStep_lastErr hstep hi)

theorem coordRun_append (l r : List CoordEv) (st : CoordState) :
    coordRun st (l ++ r) = (coordRun st l).bind fun m => coordRun m r := by
  induction l generalizing st with
  | nil => simp [coordRun]
  | cons ev l ih =>
    simp only [List.cons_append, coordRun]
    cases hstep : coordStep st ev with
    | none => simp only [hstep]; rfl
    | some m =>
      simp only [hstep]
      exact ih m

/-- **C1** (amended): in every valid schedule of the fan-out phase, (1) the
final recorded error is the **last** error any failing fetch stored (`setErr`
overwrites, so with several concurrent failures this need not be the first);
(2) once the recorded error is non-nil it is never cleared (it stays non-nil to
the end of the run); (3) a chunk descriptor is only ever enqueued at a moment
when no error is recorded. -/
theorem coord_err_sticky_last :
    ∀ (evs : List CoordEv) (st : CoordState), coordRun coordInit evs = some st →
      st.err = st.errHistory.getLast? ∧
      (∀ l r stl, evs = l ++ r → coordRun coordInit l = some stl →
        stl.err.isSome = true → st.err.isSome = true) ∧
      (∀ l c r stl, evs = l ++ CoordEv.enqueue c :: r → coordRun coordInit l = some stl →
        stl.err = none) := by
  intro evs st h
  refine ⟨coordRun_lastErr h rfl, ?_, ?_⟩
  · intro l r stl hsplit hl he
    subst hsplit
    have h2 : coordRun stl r = some st := by
      rw [coordRun_append, hl] at h
      simpa using h
    exact coordRun_err_mono h2 he
  · intro l c r stl hsplit hl
    subst hsplit
    have h2 : coordRun stl (CoordEv.enqueue c :: r) = some st := by
      rw [coordRun_append, hl] at h
      simpa using h
    simp only [coordRun] at h2
    cases hstep : coordStep stl (CoordEv.enqueue c) with
    | none => simp only [hstep] at h2; exact Option.noConfusion h2
    | some m =>
      simp only [coordStep] at hstep
      by_cases hcond : stl.err = none
      · exact hcond
      · rw [if_neg hcond] at hstep; exact Option.noConfusion hstep

/-- Witness for `coord_err_sticky_last` at a concrete one-failure schedule. -/
theorem coord_err_sticky_last_witness :
    coordRun coordInit [CoordEv.enqueue 0, CoordEv.start 0, CoordEv.fail 0 5] =
      some { err := some 5, errHistory := [5] } ∧
    ({ err := some 5, errHistory := [5] } : CoordState).err =
      ({ err := some 5, errHistory := [5] } : CoordState).errHistory.getLast? :=
  ⟨by decide,
    (coord_err_sticky_last [CoordEv.enqueue 0, CoordEv.start 0, CoordEv.fail 0 5]
      { err := some 5, errHistory := [5] } (by decide)).1⟩

/-- **C4**: at the join point of a chunked download, a recorded error yields
`(nil, err)` — the partial output is discarded; with no error the stored first
response is returned with `ContentLength` set to the written-byte counter and
`ContentRange` set to `"bytes=<offset>-<totalBytes-1>"`, the rest of the
metadata being the first successful chunk response's (the `d.out` slot is
first-writer-wins).  Concretely, the sub-range request `bytes=100-199` on a
1000-byte object is served by exactly one fetch of `bytes=100-199` and yields
`ContentRange = "bytes=100-199"`. -/
theorem download_finalize_spec :
    (∀ st e, st.err = some e → (finalizeD st).1 = .ret none (some e)) ∧
    (∀ st o, st.err = none → st.out = some o →
      (finalizeD st).1 = .ret (some { o with
        contentLength := st.written
        contentRange := "bytes=" ++ toString st.offset ++ "-" ++ toString (st.totalBytes - 1) }) none) ∧
    (∀ st o resp, st.out = some o → (setOutputS st resp).out = some o) ∧
    (download optsStd inputSubrange fetchOkSub 8).1 =
      .ret (some { etag := "tag1", contentLength := 100, contentRange := "bytes=100-199", meta := 7 }) none ∧
    (download optsStd inputSubrange fetchOkSub 8).2.getCalls = 1 ∧
    (download optsStd inputSubrange fetchOkSub 8).2.requests.map GetObjParams.range =
      [some "bytes=100-199"] := by
  refine ⟨?_, ?_, ?_, by decide, by decide, by decide⟩
  · intro st e he
    simp [finalizeD, he]
  · intro st o he ho
    simp [finalizeD, he, ho]
  · intro st o resp ho
    simp [setOutputS, ho]

/-- Witness for `download_finalize_spec` at a concrete errored state. -/
theorem download_finalize_spec_witness :
    (finalizeD { totalBytes := -1, err := some (DErr.callFailure 3) }).1 =
      DownloadResult.ret none (some (DErr.callFailure 3)) :=
  download_finalize_spec.1 { totalBytes := -1, err := some (DErr.callFailure 3) } _ rfl

/-- **C10**: the request builder overwrites any caller-supplied `IfMatch` with
the captured etag whenever the input carries no `VersionID` and the captured
etag is non-empty; the caller's own `IfMatch` goes out only while no tag has
been captured (`d.etag` still empty) or when the request is pinned to an
explicit version. -/
theorem chunk_params_ifMatch :
    ∀ (input : DLInput) (st : DState) (chunk : Chunk),
      (input.versionID = "" → st.etag ≠ "" →
        (buildChunkParams input st chunk).ifMatch = some st.etag) ∧
      (st.etag = "" → (buildChunkParams input st chunk).ifMatch = nzstring input.ifMatch) ∧
      (input.versionID ≠ "" → (buildChunkParams input st chunk).ifMatch = nzstring input.ifMatch) := by
  intro input st chunk
  refine ⟨?_, ?_, ?_⟩
  · intro hv he
    by_cases hp : chunk.part = 0 <;> by_cases hr : chunk.withRange = "" <;>
      simp [buildChunkParams, mapGetObjectInput, nzstring, hp, hr, hv, he]
  · intro he
    by_cases hp : chunk.part = 0 <;> by_cases hr : chunk.withRange = "" <;>
      simp [buildChunkParams, mapGetObjectInput, nzstring, hp, hr, he]
  · intro hv
    by_cases hp : chunk.part = 0 <;> by_cases hr : chunk.withRange = "" <;>
      simp [buildChunkParams, mapGetObjectInput, nzstring, hp, hr, hv]

/-- Witness for `chunk_params_ifMatch`: after the tag `"tag1"` is captured, a
caller-supplied `IfMatch: "caller"` is replaced by `"tag1"`. -/
theorem chunk_params_ifMatch_witness :
    (buildChunkParams { ifMatch := "caller" }
      { totalBytes := -1, etag := "tag1", etagOnceDone := true } {}).ifMatch = some "tag1" :=
  (chunk_params_ifMatch { ifMatch := "caller" }
    { totalBytes := -1, etag := "tag1", etagOnceDone := true } {}).1 rfl (by decide)

theorem setTotalBytes_preserves (st : DState) (resp : GetObjResp) :
    (setTotalBytes st resp).getCalls = st.getCalls ∧
    (setTotalBytes st resp).etag = st.etag ∧
    (setTotalBytes st resp).etagOnceDone = st.etagOnceDone ∧
    (setTotalBytes st resp).requests = st.requests := by
  unfold setTotalBytes
  split
  · exact ⟨rfl, rfl, rfl, rfl⟩
  · split
    · exact ⟨rfl, rfl, rfl, rfl⟩
    · dsimp only
      split
      · exact ⟨rfl, rfl, rfl, rfl⟩
      · exact ⟨rfl, rfl, rfl, rfl⟩

theorem captureTotal_preserves (st : DState) (resp : GetObjResp) :
    (captureTotal st resp).getCalls = st.getCalls ∧
    (captureTotal st resp).etag = st.etag ∧
    (captureTotal st resp).etagOnceDone = st.etagOnceDone ∧
    (captureTotal st resp).requests = st.requests := by
  unfold captureTotal
  split
  · exact ⟨rfl, rfl, rfl, rfl⟩
  · have h := setTotalBytes_preserves st resp
    exact ⟨h.1, h.2.1, h.2.2.1, h.2.2.2⟩

theorem captureTotal_done (st : DState) (resp : GetObjResp)
    (h : st.totalBytesOnceDone = true) : captureTotal st resp = st := by
  simp [captureTotal, h]

theorem etagOnceDoS_preserves (st : DState) (tag : String) :
    (etagOnceDoS st tag).getCalls = st.getCalls ∧
    (etagOnceDoS st tag).totalBytes = st.totalBytes ∧
    (etagOnceDoS st tag).totalBytesOnceDone = st.totalBytesOnceDone ∧
    (etagOnceDoS st tag).requests = st.requests := by
  unfold etagOnceDoS
  split
  · exact ⟨rfl, rfl, rfl, rfl⟩
  · exact ⟨rfl, rfl, rfl, rfl⟩

theorem chunkLoop_zero (att : Nat → AttemptResult) (st : DState) (idx : Nat)
    (acc : Option GetObjResp × Int × Option DErr) :
    chunkLoop att st idx 0 acc = (st, acc, false) := rfl

theorem chunkLoop_succ_call {att : Nat → AttemptResult} {idx : Nat} {e0 : Nat}
    (st : DState) (rem : Nat) (acc : Option GetObjResp × Int × Option DErr)
    (ha : att idx = .callErr e0) :
    chunkLoop att st idx (rem + 1) acc =
      ({ st with getCalls := st.getCalls + 1 }, (none, 0, some (DErr.callFailure e0)), true) := by
  simp [chunkLoop, tryDownloadChunk, ha, DErr.isReadingBody]

theorem chunkLoop_succ_body {att : Nat → AttemptResult} {idx : Nat} {resp : GetObjResp} {e0 : Nat}
    (st : DState) (rem : Nat) (acc : Option GetObjResp × Int × Option DErr)
    (ha : att idx = .bodyErr resp e0) :
    chunkLoop att st idx (rem + 1) acc =
      chunkLoop att (captureTotal { st with getCalls := st.getCalls + 1 } resp) (idx + 1) rem
        (none, 0, some (DErr.readingBody e0)) := by
  simp [chunkLoop, tryDownloadChunk, ha, DErr.isReadingBody]

theorem chunkLoop_succ_ok {att : Nat → AttemptResult} {idx : Nat} {resp : GetObjResp} {n : Int}
    (st : DState) (rem : Nat) (acc : Option GetObjResp × Int × Option DErr)
    (ha : att idx = .okResp resp n) :
    chunkLoop att st idx (rem + 1) acc =
      (captureTotal { st with getCalls := st.getCalls + 1 } resp, (some resp, n, none), false) := by
  simp [chunkLoop, tryDownloadChunk, ha]

theorem downloadChunk_eq (partBodyMaxRetries : Int) (input : DLInput) (st : DState) (job : Job) :
    downloadChunk partBodyMaxRetries input st job =
      (fun res =>
        if res.2.2 then (res.1, none, res.2.1.2.2)
        else
          let st2 := incrWrittenS res.1 res.2.1.2.1
          match res.2.1.1 with
          | none => (st2, none, res.2.1.2.2)
          | some resp =>
            (etagOnceDoS st2 (resp.etag.getD ""), some (mapFromGetObjectOutput resp), res.2.1.2.2))
      (chunkLoop job.attempts
        { st with requests := st.requests ++ [buildChunkParams input st job.chunk] }
        0 partBodyMaxRetries.toNat (none, 0, none)) := by
  unfold downloadChunk
  rcases hres : chunkLoop job.attempts
      { st with requests := st.requests ++ [buildChunkParams input st job.chunk] }
      0 partBodyMaxRetries.toNat (none, 0, none) with ⟨st1, ⟨out, n, err⟩, early⟩
  simp only [hres]

theorem chunkLoop_retry_policy (att : Nat → AttemptResult) :
    ∀ (rem idx : Nat) (st : DState) (acc : Option GetObjResp × Int × Option DErr),
      ((chunkLoop att st idx rem acc).1.getCalls ≤ st.getCalls + rem) ∧
      (∀ k, st.getCalls + k + 1 < (chunkLoop att st idx rem acc).1.getCalls →
        (att (idx + k)).isBodyErr = true) ∧
      (∀ k e, k < rem → (∀ j, j < k → (att (idx + j)).isBodyErr = true) →
        att (idx + k) = .callErr e →
        (chunkLoop att st idx rem acc).1.getCalls = st.getCalls + (k + 1) ∧
        (chunkLoop att st idx rem acc).2 = ((none, 0, some (DErr.callFailure e)), true)) := by
  intro rem
  induction rem with
  | zero =>
    intro idx st acc
    rw [chunkLoop_zero]
    refine ⟨?_, ?_, ?_⟩
    · dsimp only
      omega
    · intro k hk
      dsimp only at hk
      exact absurd hk (by omega)
    · intro k e hk
      exact absurd hk (Nat.not_lt_zero k)
  | succ rem ih =>
    intro idx st acc
    cases ha : att idx with
    | callErr e0 =>
      rw [chunkLoop_succ_call st rem acc ha]
      refine ⟨?_, ?_, ?_⟩
      · show st.getCalls + 1 ≤ st.getCalls + (rem + 1)
        omega
      · intro k hk
        have hk' : st.getCalls + k + 1 < st.getCalls + 1 := hk
        exact absurd hk' (by omega)
      · intro k e hklt hbody hcall
        cases k with
        | zero =>
          rw [Nat.add_zero, ha] at hcall
          injection hcall with he
          subst he
          exact ⟨rfl, rfl⟩
        | succ k' =>
          have h0 := hbody 0 (Nat.succ_pos k')
          rw [Nat.add_zero, ha] at h0
          exact absurd h0 (by simp [AttemptResult.isBodyErr])
    | bodyErr resp e0 =>
      rw [chunkLoop_succ_body st rem acc ha]
      have hcalls : (captureTotal { st with getCalls := st.getCalls + 1 } resp).getCalls =
          st.getCalls + 1 := (captureTotal_preserves _ resp).1
      obtain ⟨iha, ihb, ihc⟩ :=
        ih (idx + 1) (captureTotal { st with getCalls := st.getCalls + 1 } resp)
          (none, 0, some (DErr.readingBody e0))
      refine ⟨by omega, ?_, ?_⟩
      · intro k hk
        cases k with
        | zero =>
          rw [Nat.add_zero, ha]
          rfl
        | succ k' =>
          have harg : idx + (k' + 1) = (idx + 1) + k' := by omega
          rw [harg]
          exact ihb k' (by omega)
      · intro k e hklt hbody hcall
        cases k with
        | zero =>
          rw [Nat.add_zero, ha] at hcall
          exact absurd hcall (by simp)
        | succ k' =>
          have hbody' : ∀ j, j < k' → (att ((idx + 1) + j)).isBodyErr = true := by
            intro j hj
            have harg : (idx + 1) + j = idx + (j + 1) := by omega
            rw [harg]
            exact hbody (j + 1) (by omega)
          have hcall' : att ((idx + 1) + k') = .callErr e := by
            have harg : (idx + 1) + k' = idx + (k' + 1) := by omega
            rw [harg]
            exact hcall
          obtain ⟨hc1, hc2⟩ := ihc k' e (by omega) hbody' hcall'
          refine ⟨?_, hc2⟩
          rw [hc1]
          omega
    | okResp resp n =>
      rw [chunkLoop_succ_ok st rem acc ha]
      have hcalls : (captureTotal { st with getCalls := st.getCalls + 1 } resp).getCalls =
          st.getCalls + 1 := (captureTotal_preserves _ resp).1
      refine ⟨?_, ?_, ?_⟩
      · dsimp only
        omega
      · intro k hk
        dsimp only at hk
        omega
      · intro k e hklt hbody hcall
        cases k with
        | zero =>
          rw [Nat.add_zero, ha] at hcall
          exact absurd hcall (by simp)
        | succ k' =>
          have h0 := hbody 0 (Nat.succ_pos k')
          rw [Nat.add_zero, ha] at h0
          exact absurd h0 (by simp [AttemptResult.isBodyErr])

theorem etagOnceDoS_getCalls (st : DState) (tag : String) :
    (etagOnceDoS st tag).getCalls = st.getCalls := (etagOnceDoS_preserves st tag).1

/-- **C5**: for every chunk, `downloadChunk` issues at most `PartBodyMaxRetries`
`GetObject` attempts; a further attempt is made only after a body-stream-read
failure (`errReadingBody`); and if the first non-body-failure outcome is an
error of the `GetObject` call itself, the chunk aborts right there — the loop
returns that call error with no additional attempt. -/
theorem downloadChunk_retry_policy :
    ∀ (partBodyMaxRetries : Int) (input : DLInput) (st : DState) (job : Job),
      ((downloadChunk partBodyMaxRetries input st job).1.getCalls ≤
        st.getCalls + partBodyMaxRetries.toNat) ∧
      (∀ k, st.getCalls + k + 1 < (downloadChunk partBodyMaxRetries input st job).1.getCalls →
        (job.attempts k).isBodyErr = true) ∧
      (∀ k e, k < partBodyMaxRetries.toNat →
        (∀ j, j < k → (job.attempts j).isBodyErr = true) →
        job.attempts k = .callErr e →
        (downloadChunk partBodyMaxRetries input st job).1.getCalls = st.getCalls + (k + 1) ∧
        (downloadChunk partBodyMaxRetries input st job).2.2 = some (DErr.callFailure e)) := by
  intro R input st job
  have hdc := downloadChunk_eq R input st job
  have H := chunkLoop_retry_policy job.attempts R.toNat 0
    { st with requests := st.requests ++ [buildChunkParams input st job.chunk] } (none, 0, none)
  rcases hres : chunkLoop job.attempts
      { st with requests := st.requests ++ [buildChunkParams input st job.chunk] }
      0 R.toNat (none, 0, none) with ⟨st1, ⟨out, n, err⟩, early⟩
  rw [hres] at H hdc
  obtain ⟨Ha, Hb, Hc⟩ := H
  dsimp only at Ha Hb Hc hdc
  have hcalls : (downloadChunk R input st job).1.getCalls = st1.getCalls := by
    rw [hdc]
    cases early with
    | true => simp
    | false =>
      cases out with
      | none => simp [incrWrittenS]
      | some resp => simp [incrWrittenS, etagOnceDoS_getCalls]
  have herr : (downloadChunk R input st job).2.2 = err := by
    rw [hdc]
    cases early with
    | true => simp
    | false =>
      cases out with
      | none => simp
      | some resp => simp
  refine ⟨?_, ?_, ?_⟩
  · rw [hcalls]
    exact Ha
  · intro k hk
    rw [hcalls] at hk
    have h2 := Hb k hk
    rwa [Nat.zero_add] at h2
  · intro k e hklt hbody hcall
    have hbody' : ∀ j, j < k → (job.attempts (0 + j)).isBodyErr = true := by
      intro j hj
      rw [Nat.zero_add]
      exact hbody j hj
    have hcall' : job.attempts (0 + k) = .callErr e := by
      rw [Nat.zero_add]
      exact hcall
    obtain ⟨hc1, hc2⟩ := Hc k e hklt hbody' hcall'
    have herr2 : err = some (DErr.callFailure e) := by
      have h3 := congrArg (fun p => p.1.2.2) hc2
      simpa using h3
    constructor
    · rw [hcalls]
      exact hc1
    · rw [herr, herr2]

/-- Witness for `downloadChunk_retry_policy`: a chunk whose very first attempt
is a call-level failure makes exactly one attempt and aborts with it. -/
theorem downloadChunk_retry_policy_witness :
    (downloadChunk 2 inputPlain dInit jobCallFail).1.getCalls = 1 ∧
    (downloadChunk 2 inputPlain dInit jobCallFail).2.2 = some (DErr.callFailure 3) :=
  (downloadChunk_retry_policy 2 inputPlain dInit jobCallFail).2.2 0 3 (by decide)
    (fun j hj => absurd hj (Nat.not_lt_zero j)) rfl

theorem etagOnceDoS_done {st : DState} (h : st.etagOnceDone = true) (tag : String) :
    etagOnceDoS st tag = st := by
  simp [etagOnceDoS, h]

theorem etagOnceDoS_not_done {st : DState} (h : st.etagOnceDone = false) (tag : String) :
    etagOnceDoS st tag = { st with etag := tag, etagOnceDone := true } := by
  simp [etagOnceDoS, h]

theorem buildChunkParams_ifMatch_replace (input : DLInput) (st : DState) (chunk : Chunk)
    (hv : input.versionID = "") (he : st.etag ≠ "") :
    (buildChunkParams input st chunk).ifMatch = some st.etag := by
  by_cases hp : chunk.part = 0 <;> by_cases hr : chunk.withRange = "" <;>
    simp [buildChunkParams, mapGetObjectInput, nzstring, hp, hr, hv, he]

theorem chunkLoop_preserves (att : Nat → AttemptResult) :
    ∀ (rem idx : Nat) (st : DState) (acc : Option GetObjResp × Int × Option DErr),
      (chunkLoop att st idx rem acc).1.etag = st.etag ∧
      (chunkLoop att st idx rem acc).1.etagOnceDone = st.etagOnceDone ∧
      (chunkLoop att st idx rem acc).1.requests = st.requests := by
  intro rem
  induction rem with
  | zero =>
    intro idx st acc
    rw [chunkLoop_zero]
    exact ⟨rfl, rfl, rfl⟩
  | succ rem ih =>
    intro idx st acc
    cases ha : att idx with
    | callErr e0 =>
      rw [chunkLoop_succ_call st rem acc ha]
      exact ⟨rfl, rfl, rfl⟩
    | bodyErr resp e0 =>
      rw [chunkLoop_succ_body st rem acc ha]
      have hcap := captureTotal_preserves { st with getCalls := st.getCalls + 1 } resp
      obtain ⟨i1, i2, i3⟩ := ih (idx + 1)
        (captureTotal { st with getCalls := st.getCalls + 1 } resp)
        (none, 0, some (DErr.readingBody e0))
      exact ⟨i1.trans hcap.2.1, i2.trans hcap.2.2.1, i3.trans hcap.2.2.2⟩
    | okResp resp n =>
      rw [chunkLoop_succ_ok st rem acc ha]
      have hcap := captureTotal_preserves { st with getCalls := st.getCalls + 1 } resp
      exact ⟨hcap.2.1, hcap.2.2.1, hcap.2.2.2⟩

theorem chunkLoop_totalBytes_done (att : Nat → AttemptResult) :
    ∀ (rem idx : Nat) (st : DState) (acc : Option GetObjResp × Int × Option DErr),
      st.totalBytesOnceDone = true →
      (chunkLoop att st idx rem acc).1.totalBytes = st.totalBytes ∧
      (chunkLoop att st idx rem acc).1.totalBytesOnceDone = true := by
  intro rem
  induction rem with
  | zero =>
    intro idx st acc h
    rw [chunkLoop_zero]
    exact ⟨rfl, h⟩
  | succ rem ih =>
    intro idx st acc h
    cases ha : att idx with
    | callErr e0 =>
      rw [chunkLoop_succ_call st rem acc ha]
      exact ⟨rfl, h⟩
    | bodyErr resp e0 =>
      rw [chunkLoop_succ_body st rem acc ha]
      rw [captureTotal_done { st with getCalls := st.getCalls + 1 } resp h]
      exact ih (idx + 1) { st with getCalls := st.getCalls + 1 }
        (none, 0, some (DErr.readingBody e0)) h
    | okResp resp n =>
      rw [chunkLoop_succ_ok st rem acc ha]
      rw [captureTotal_done { st with getCalls := st.getCalls + 1 } resp h]
      exact ⟨rfl, h⟩

theorem etagOnceDoS_requests (st : DState) (tag : String) :
    (etagOnceDoS st tag).requests = st.requests := (etagOnceDoS_preserves st tag).2.2.2

theorem etagOnceDoS_totalBytes (st : DState) (tag : String) :
    (etagOnceDoS st tag).totalBytes = st.totalBytes := (etagOnceDoS_preserves st tag).2.1

theorem etagOnceDoS_totalBytesOnceDone (st : DState) (tag : String) :
    (etagOnceDoS st tag).totalBytesOnceDone = st.totalBytesOnceDone :=
  (etagOnceDoS_preserves st tag).2.2.1

theorem downloadChunk_requests (R : Int) (input : DLInput) (st : DState) (job : Job) :
    (downloadChunk R input st job).1.requests =
      st.requests ++ [buildChunkParams input st job.chunk] := by
  have hdc := downloadChunk_eq R input st job
  have hpres := chunkLoop_preserves job.attempts R.toNat 0
    { st with requests := st.requests ++ [buildChunkParams input st job.chunk] } (none, 0, none)
  rcases hres : chunkLoop job.attempts
      { st with requests := st.requests ++ [buildChunkParams input st job.chunk] }
      0 R.toNat (none, 0, none) with ⟨st1, ⟨out, n, err⟩, early⟩
  rw [hres] at hdc hpres
  dsimp only at hdc hpres
  obtain ⟨-, -, hreq⟩ := hpres
  rw [hdc]
  cases early with
  | true =>
    rw [if_pos rfl]
    exact hreq
  | false =>
    rw [if_neg Bool.false_ne_true]
    cases out with
    | none => exact hreq
    | some resp =>
      dsimp only
      rw [etagOnceDoS_requests]
      exact hreq

theorem downloadChunk_totalBytes_done (R : Int) (input : DLInput) (st : DState) (job : Job)
    (h : st.totalBytesOnceDone = true) :
    (downloadChunk R input st job).1.totalBytes = st.totalBytes ∧
    (downloadChunk R input st job).1.totalBytesOnceDone = true := by
  have hdc := downloadChunk_eq R input st job
  have htb := chunkLoop_totalBytes_done job.attempts R.toNat 0
    { st with requests := st.requests ++ [buildChunkParams input st job.chunk] } (none, 0, none) h
  rcases hres : chunkLoop job.attempts
      { st with requests := st.requests ++ [buildChunkParams input st job.chunk] }
      0 R.toNat (none, 0, none) with ⟨st1, ⟨out, n, err⟩, early⟩
  rw [hres] at hdc htb
  dsimp only at hdc htb
  obtain ⟨ht1, ht2⟩ := htb
  rw [hdc]
  cases early with
  | true =>
    rw [if_pos rfl]
    exact ⟨ht1, ht2⟩
  | false =>
    rw [if_neg Bool.false_ne_true]
    cases out with
    | none => exact ⟨ht1, ht2⟩
    | some resp =>
      dsimp only
      rw [etagOnceDoS_totalBytes, etagOnceDoS_totalBytesOnceDone]
      exact ⟨ht1, ht2⟩

theorem downloadChunk_etag_spec (R : Int) (input : DLInput) (st : DState) (job : Job) :
    (st.etagOnceDone = true →
      (downloadChunk R input st job).1.etag = st.etag ∧
      (downloadChunk R input st job).1.etagOnceDone = true) ∧
    (st.etagOnceDone = false →
      ((downloadChunk R input st job).2.1 = none →
        (downloadChunk R input st job).1.etag = st.etag ∧
        (downloadChunk R input st job).1.etagOnceDone = false) ∧
      (∀ o, (downloadChunk R input st job).2.1 = some o →
        (downloadChunk R input st job).1.etag = o.etag ∧
        (downloadChunk R input st job).1.etagOnceDone = true)) := by
  have hdc := downloadChunk_eq R input st job
  have hpres := chunkLoop_preserves job.attempts R.toNat 0
    { st with requests := st.requests ++ [buildChunkParams input st job.chunk] } (none, 0, none)
  rcases hres : chunkLoop job.attempts
      { st with requests := st.requests ++ [buildChunkParams input st job.chunk] }
      0 R.toNat (none, 0, none) with ⟨st1, ⟨out, n, err⟩, early⟩
  rw [hres] at hdc hpres
  dsimp only at hdc hpres
  obtain ⟨hetag, hdone, -⟩ := hpres
  constructor
  · intro h
    rw [hdc]
    cases early with
    | true =>
      rw [if_pos rfl]
      exact ⟨hetag, hdone.trans h⟩
    | false =>
      rw [if_neg Bool.false_ne_true]
      cases out with
      | none => exact ⟨hetag, hdone.trans h⟩
      | some resp =>
        dsimp only
        have hX : (incrWrittenS st1 n).etagOnceDone = true := hdone.trans h
        rw [etagOnceDoS_done hX]
        exact ⟨hetag, hdone.trans h⟩
  · intro h
    constructor
    · intro hout
      rw [hdc] at hout ⊢
      cases early with
      | true =>
        rw [if_pos rfl]
        exact ⟨hetag, hdone.trans h⟩
      | false =>
        rw [if_neg Bool.false_ne_true] at hout ⊢
        cases out with
        | none => exact ⟨hetag, hdone.trans h⟩
        | some resp =>
          dsimp only at hout
          exact Option.noConfusion hout
    · intro o hout
      rw [hdc] at hout ⊢
      cases early with
      | true =>
        rw [if_pos rfl] at hout
        exact Option.noConfusion hout
      | false =>
        rw [if_neg Bool.false_ne_true] at hout ⊢
        cases out with
        | none =>
          dsimp only at hout
          exact Option.noConfusion hout
        | some resp =>
          dsimp only at hout ⊢
          have ho : mapFromGetObjectOutput resp = o := by
            injection hout
          have hX : (incrWrittenS st1 n).etagOnceDone = false := hdone.trans h
          rw [etagOnceDoS_not_done hX]
          subst ho
          exact ⟨rfl, rfl⟩

theorem processChunks_etag_done (R : Int) (input : DLInput) :
    ∀ (jobs : List Job) (st : DState), st.etagOnceDone = true →
      (processChunks R input st jobs).etag = st.etag ∧
      (processChunks R input st jobs).etagOnceDone = true := by
  intro jobs
  induction jobs with
  | nil => intro st h; exact ⟨rfl, h⟩
  | cons j jobs ih =>
    intro st h
    obtain ⟨h1, h2⟩ := (downloadChunk_etag_spec R input st j).1 h
    obtain ⟨g1, g2⟩ := ih (downloadChunk R input st j).1 h2
    exact ⟨g1.trans h1, g2⟩

theorem processChunks_totalBytes_done (R : Int) (input : DLInput) :
    ∀ (jobs : List Job) (st : DState), st.totalBytesOnceDone = true →
      (processChunks R input st jobs).totalBytes = st.totalBytes ∧
      (processChunks R input st jobs).totalBytesOnceDone = true := by
  intro jobs
  induction jobs with
  | nil => intro st h; exact ⟨rfl, h⟩
  | cons j jobs ih =>
    intro st h
    obtain ⟨h1, h2⟩ := downloadChunk_totalBytes_done R input st j h
    obtain ⟨g1, g2⟩ := ih (downloadChunk R input st j).1 h2
    exact ⟨g1.trans h1, g2⟩

theorem processChunks_ifMatch (R : Int) (input : DLInput) (hv : input.versionID = "") :
    ∀ (jobs : List Job) (st : DState), st.etagOnceDone = true → st.etag ≠ "" →
      ∃ l, (processChunks R input st jobs).requests = st.requests ++ l ∧
        ∀ p ∈ l, p.ifMatch = some st.etag := by
  intro jobs
  induction jobs with
  | nil =>
    intro st h he
    exact ⟨[], by simp [processChunks], by simp⟩
  | cons j jobs ih =>
    intro st h he
    obtain ⟨h1, h2⟩ := (downloadChunk_etag_spec R input st j).1 h
    have hreq := downloadChunk_requests R input st j
    have he' : (downloadChunk R input st j).1.etag ≠ "" := by rw [h1]; exact he
    obtain ⟨l, hl, hp⟩ := ih (downloadChunk R input st j).1 h2 he'
    refine ⟨buildChunkParams input st j.chunk :: l, ?_, ?_⟩
    · show (processChunks R input (downloadChunk R input st j).1 jobs).requests = _
      rw [hl, hreq]
      simp
    · intro p hpmem
      rcases List.mem_cons.mp hpmem with hfirst | hrest
      · subst hfirst
        exact buildChunkParams_ifMatch_replace input st j.chunk hv he
      · have hmem := hp p hrest
        rw [h1] at hmem
        exact hmem

/-- **C6**: the object identity tag: (1) once `etagOnce` has fired, processing
any further chunks never changes the recorded tag; (2) while unfired, a chunk
that produces no output leaves the tag untouched and unfired, and the first
chunk that succeeds records exactly its response's `ETag`, firing the once-cell;
(3) after the tag is captured (non-empty) and with no explicit `VersionID` on
the input, every subsequently built chunk request carries
`IfMatch = <captured tag>`. -/
theorem downloader_etag_once :
    ∀ (partBodyMaxRetries : Int) (input : DLInput) (st : DState) (job : Job) (jobs : List Job),
      (st.etagOnceDone = true →
        (processChunks partBodyMaxRetries input st jobs).etag = st.etag ∧
        (processChunks partBodyMaxRetries input st jobs).etagOnceDone = true) ∧
      (st.etagOnceDone = false →
        ((downloadChunk partBodyMaxRetries input st job).2.1 = none →
          (downloadChunk partBodyMaxRetries input st job).1.etag = st.etag ∧
          (downloadChunk partBodyMaxRetries input st job).1.etagOnceDone = false) ∧
        (∀ o, (downloadChunk partBodyMaxRetries input st job).2.1 = some o →
          (downloadChunk partBodyMaxRetries input st job).1.etag = o.etag ∧
          (downloadChunk partBodyMaxRetries input st job).1.etagOnceDone = true)) ∧
      (input.versionID = "" → st.etagOnceDone = true → st.etag ≠ "" →
        ∀ p ∈ (processChunks partBodyMaxRetries input st jobs).requests.drop st.requests.length,
          p.ifMatch = some st.etag) := by
  intro R input st job jobs
  refine ⟨processChunks_etag_done R input jobs st,
    (downloadChunk_etag_spec R input st job).2, ?_⟩
  intro hv h he
  obtain ⟨l, hl, hp⟩ := processChunks_ifMatch R input hv jobs st h he
  intro p hpmem
  rw [hl, List.drop_left] at hpmem
  exact hp p hpmem

/-- Witness for `downloader_etag_once`: with the tag `"tag1"` already captured,
a further successful chunk leaves it unchanged. -/
theorem downloader_etag_once_witness :
    (processChunks 3 inputPlain { totalBytes := -1, etag := "tag1", etagOnceDone := true }
      [jobOkSub]).etag = "tag1" :=
  ((downloader_etag_once 3 inputPlain
    { totalBytes := -1, etag := "tag1", etagOnceDone := true } jobOkSub [jobOkSub]).1 rfl).1

/-- **C7**: the discovered total size starts unknown (`init` sets `-1`); once
`totalBytesOnce` has fired, no later chunk changes it; on the first successful
`GetObject` response it is taken from the declared content range's trailing
total when a content range is present, and from the content length otherwise;
and a failed `GetObject` call performs no capture at all. -/
theorem downloader_totalBytes_once :
    ∀ (partBodyMaxRetries : Int) (input : DLInput) (st : DState) (jobs : List Job)
      (resp : GetObjResp) (e : Nat),
      dInit.totalBytes = -1 ∧
      (st.totalBytesOnceDone = true →
        (processChunks partBodyMaxRetries input st jobs).totalBytes = st.totalBytes ∧
        (processChunks partBodyMaxRetries input st jobs).totalBytesOnceDone = true) ∧
      (st.totalBytesOnceDone = false → st.totalBytes = -1 →
        (captureTotal st resp).totalBytesOnceDone = true ∧
        (resp.contentRange = none →
          (captureTotal st resp).totalBytes = resp.contentLength.getD 0) ∧
        (∀ cr t, resp.contentRange = some cr →
          parseInt64 ((splitOnChar '/' cr).getLastD "") = some t →
          (captureTotal st resp).totalBytes = t)) ∧
      ((tryDownloadChunk st (.callErr e)).1.totalBytes = st.totalBytes ∧
        (tryDownloadChunk st (.callErr e)).1.totalBytesOnceDone = st.totalBytesOnceDone) := by
  intro R input st jobs resp e
  refine ⟨rfl, processChunks_totalBytes_done R input jobs st, ?_, rfl, rfl⟩
  intro h h2
  refine ⟨?_, ?_, ?_⟩
  · simp [captureTotal, h]
  · intro hcr
    simp [captureTotal, setTotalBytes, h, h2, hcr]
  · intro cr t hcr hparse
    simp only [List.getLastD_eq_getLast?] at hparse
    simp [captureTotal, setTotalBytes, h, h2, hcr, hparse]

/-- Witness for `downloader_totalBytes_once`: the first capture on a response
declaring `Content-Range: bytes 0-99/1000` records a total of `1000`. -/
theorem downloader_totalBytes_once_witness :
    (captureTotal dInit { contentRange := some "bytes 0-99/1000" }).totalBytes = 1000 := by
  have h := (downloader_totalBytes_once 3 inputPlain dInit []
    { contentRange := some "bytes 0-99/1000" } 0).2.2.1 rfl rfl
  exact h.2.2 "bytes 0-99/1000" 1000 rfl (by decide)

theorem splitList_no_sep (sep : Char) :
    ∀ (l : List Char), (∀ c ∈ l, c ≠ sep) → splitList sep l = [l] := by
  intro l
  induction l with
  | nil => intro _; rfl
  | cons c cs ih =>
    intro h
    have hc : c ≠ sep := h c (List.mem_cons_self c cs)
    have hcs := ih fun x hx => h x (List.mem_cons_of_mem c hx)
    simp [splitList, hc, hcs]

theorem splitList_append_sep (sep : Char) :
    ∀ (l1 l2 : List Char), (∀ c ∈ l1, c ≠ sep) →
      splitList sep (l1 ++ sep :: l2) = l1 :: splitList sep l2 := by
  intro l1
  induction l1 with
  | nil => intro l2 _; simp [splitList]
  | cons c cs ih =>
    intro l2 h
    have hc : c ≠ sep := h c (List.mem_cons_self c cs)
    have hcs := ih l2 fun x hx => h x (List.mem_cons_of_mem c hx)
    simp [splitList, hc, hcs]

theorem isDigit_ne_sep (c : Char) (h : c.isDigit = true) : c ≠ '=' ∧ c ≠ '-' := by
  constructor
  · rintro rfl
    exact absurd h (by decide)
  · rintro rfl
    exact absurd h (by decide)

/-- **C8** (amended): a well-formed `bytes=<start>-<end>` with decimal bounds
parses into the half-open span `[start, end+1)`; a non-numeric bound makes
`getDownloadRange` record the `strconv` error into the coordinator's error
field (the `fail` outcome); but input missing the `=` or the `-` separator is
an index-out-of-range panic, not a recorded parse error. -/
theorem getDownloadRange_spec :
    (∀ (s1 s2 : String) (lo hi : Int),
      (∀ c ∈ s1.toList, c.isDigit = true) → (∀ c ∈ s2.toList, c.isDigit = true) →
      parseInt64 s1 = some lo → parseInt64 s2 = some hi →
      getDownloadRange ("bytes=" ++ s1 ++ "-" ++ s2) = RangeParse.ok lo (hi + 1)) ∧
    getDownloadRange "bytes=abc-5" = RangeParse.fail "abc" ∧
    getDownloadRange "bytes=100" = RangeParse.panicIdx ∧
    getDownloadRange "100-200" = RangeParse.panicIdx := by
  refine ⟨?_, by decide, by decide, by decide⟩
  intro s1 s2 lo hi hd1 hd2 hp1 hp2
  have hne : ∀ c ∈ s1.toList ++ '-' :: s2.toList, c ≠ '=' := by
    intro c hc
    rcases List.mem_append.mp hc with h | h
    · exact (isDigit_ne_sep c (hd1 c h)).1
    · rcases List.mem_cons.mp h with rfl | h
      · decide
      · exact (isDigit_ne_sep c (hd2 c h)).1
  have hne1 : ∀ c ∈ s1.toList, c ≠ '-' := fun c hc => (isDigit_ne_sep c (hd1 c hc)).2
  have hne2 : ∀ c ∈ s2.toList, c ≠ '-' := fun c hc => (isDigit_ne_sep c (hd2 c hc)).2
  have hlist : ("bytes=" ++ s1 ++ "-" ++ s2).toList
      = ['b', 'y', 't', 'e', 's'] ++ '=' :: (s1.toList ++ '-' :: s2.toList) := by
    show ("bytes=" ++ s1 ++ "-" ++ s2).data
        = ['b', 'y', 't', 'e', 's'] ++ '=' :: (s1.data ++ '-' :: s2.data)
    rw [String.data_append, String.data_append, String.data_append]
    rw [show "bytes=".data = ['b', 'y', 't', 'e', 's', '='] by decide]
    rw [show "-".data = ['-'] by decide]
    simp
  have h1 : splitOnChar '=' ("bytes=" ++ s1 ++ "-" ++ s2)
      = ["bytes", String.mk (s1.toList ++ '-' :: s2.toList)] := by
    unfold splitOnChar
    rw [show ("bytes=" ++ s1 ++ "-" ++ s2).toList
        = ['b', 'y', 't', 'e', 's'] ++ '=' :: (s1.toList ++ '-' :: s2.toList) from hlist]
    rw [splitList_append_sep '=' ['b', 'y', 't', 'e', 's'] _ (by decide)]
    rw [splitList_no_sep '=' _ hne]
    rfl
  have h2 : splitOnChar '-' (String.mk (s1.toList ++ '-' :: s2.toList)) = [s1, s2] := by
    unfold splitOnChar
    rw [show (String.mk (s1.toList ++ '-' :: s2.toList)).toList
        = s1.toList ++ '-' :: s2.toList from rfl]
    rw [splitList_append_sep '-' s1.toList s2.toList hne1]
    rw [splitList_no_sep '-' s2.toList hne2]
    show [String.mk s1.toList, String.mk s2.toList] = [s1, s2]
    rfl
  unfold getDownloadRange
  rw [h1]
  dsimp only
  rw [h2]
  dsimp only
  rw [hp1]
  dsimp only
  rw [hp2]

/-- Witness for `getDownloadRange_spec`: `bytes=100-199` parses to `[100, 200)`. -/
theorem getDownloadRange_spec_witness :
    getDownloadRange ("bytes=" ++ "100" ++ "-" ++ "199") = RangeParse.ok 100 200 := by
  have h := getDownloadRange_spec.1 "100" "199" 100 199 (by decide) (by decide)
    (by decide) (by decide)
  exact h.trans (by decide)

theorem bitLen_le : ∀ (fuel k n : Nat), n < 2 ^ k → bitLen fuel n ≤ k := by
  intro fuel
  induction fuel with
  | zero =>
    intro k n _
    exact Nat.zero_le k
  | succ fuel ih =>
    intro k n hn
    by_cases h0 : n = 0
    · simp [bitLen, h0]
    · have hk : 1 ≤ k := by
        by_contra hc
        have : k = 0 := by omega
        subst this
        simp at hn
        omega
      have hhalf : n / 2 < 2 ^ (k - 1) := by
        have h2 : 2 ^ k = 2 ^ (k - 1) * 2 := by
          rw [← Nat.pow_succ]
          congr 1
          omega
        rw [Nat.div_lt_iff_lt_mul (by norm_num)]
        omega
      have := ih (k - 1) (n / 2) hhalf
      simp only [bitLen, h0, if_false]
      omega

theorem floatRoundNat_id (n : Nat) (h : n ≤ 2 ^ 53) : floatRoundNat n = n := by
  by_cases hlt : n < 2 ^ 53
  · have hb : bitLen 64 n ≤ 53 := bitLen_le 64 53 n hlt
    simp [floatRoundNat, hb]
  · have : n = 2 ^ 53 := by omega
    subst this
    decide

theorem floatRoundInt_id (x : Int) (h1 : -(2 ^ 53) ≤ x) (h2 : x ≤ 2 ^ 53) :
    floatRoundInt x = x := by
  unfold floatRoundInt
  by_cases hx : 0 ≤ x
  · rw [if_pos hx]
    rw [floatRoundNat_id x.toNat (by omega)]
    omega
  · rw [if_neg hx]
    rw [floatRoundNat_id (-x).toNat (by omega)]
    omega

theorem wrap64_id (x : Int) (h1 : -(2 ^ 63) ≤ x) (h2 : x < 2 ^ 63) : wrap64 x = x := by
  unfold wrap64
  rw [Int.emod_eq_of_lt (by omega) (by omega)]
  omega

/-- **C9** (amended): the generated header is `"bytes=pos-u"`, where `u` goes
through the `int64 -> float64 -> math.Min -> int64` round trip.  That round
trip is exact — and `u` equals the exact `min(totalBytes-1, pos+chunkSize-1)`
— whenever both candidates lie in `[0, 2^53]` (above `2^53` the float64
conversion may change the value, see the counterexample); with the total still
unknown the bound `pos+chunkSize-1` is produced exactly (no floats on that
path), for any value in `int64` range. -/
theorem byteRange_exact_spec :
    ∀ (totalBytes pos partSize : Int),
      (0 ≤ totalBytes → totalBytes - 1 ≤ 2 ^ 53 → 0 ≤ pos →
        0 ≤ pos + partSize - 1 → pos + partSize - 1 ≤ 2 ^ 53 →
        byteRange totalBytes pos partSize =
          "bytes=" ++ toString pos ++ "-" ++
            toString (min (totalBytes - 1) (pos + partSize - 1))) ∧
      (totalBytes < 0 → -(2 ^ 63) ≤ pos + partSize - 1 → pos + partSize - 1 < 2 ^ 63 →
        byteRange totalBytes pos partSize =
          "bytes=" ++ toString pos ++ "-" ++ toString (pos + partSize - 1)) := by
  intro T pos P
  constructor
  · intro h1 h2 h3 h4 h5
    unfold byteRange
    rw [if_pos h1]
    rw [wrap64_id (pos + P - 1) (by omega) (by omega)]
    rw [floatRoundInt_id (T - 1) (by omega) h2]
    rw [floatRoundInt_id (pos + P - 1) (by omega) h5]
  · intro h1 h2 h3
    unfold byteRange
    rw [if_neg (by omega)]
    rw [wrap64_id (pos + P - 1) h2 h3]

/-- Witness for `byteRange_exact_spec`: within the float-exact region the
header ends at the exact minimum. -/
theorem byteRange_exact_spec_witness :
    byteRange 200 100 8388608 = "bytes=100-199" := by
  have h := (byteRange_exact_spec 200 100 8388608).1 (by decide) (by decide) (by decide)
    (by decide) (by decide)
  exact h.trans (by decide)
